import Mathlib

/-!
Verification of the Whammy WebM muxer (src/whammy.js) against its
natural-language specification.

Modelling conventions:
* JavaScript binary strings are lists of natural numbers (character codes).
* JavaScript numbers on the integer-valued paths are Nat, or Int where the
  code applies JavaScript bitwise operators (which coerce through ToInt32);
  the coercion is modelled explicitly by toInt32.
* A thrown exception is the error case of Except; the MuxError constructors
  correspond one-to-one to the throw sites (plus the RangeError that
  String.repeat raises on a negative count, reachable in generateEBML when
  an element content is empty, because Math.log 0 is minus infinity).
* Recursive helpers take an explicit fuel argument equal to an easy upper
  bound on the recursion depth, so that every definition is structurally
  recursive and the kernel can evaluate it on concrete inputs.
* The logarithm in generateEBML is computed by the code with floating point
  Math.log; the model uses the exact value ceil (log2 len), which agrees
  with the float computation at every length relevant here (the float
  quotient is known to land below the integer at small powers of two, e.g.
  Math.log 8 / Math.log 2 evaluates to 2.9999999999999996).
-/

namespace Whammy

/-- Error taxonomy of the muxer; each constructor corresponds to one throw
site (or reachable runtime exception) in src/whammy.js. -/
inductive MuxError where
  | noFrames
  | inconsistentWidth (frame : Nat)
  | inconsistentHeight (frame : Nat)
  | invalidDuration (frame : Nat)
  | trackNumberTooBig
  | vintRange
deriving DecidableEq

instance {ε α : Type} [DecidableEq ε] [DecidableEq α] : DecidableEq (Except ε α) := fun a b =>
  match a, b with
  | .error x, .error y =>
    if h : x = y then isTrue (by subst h; rfl) else isFalse (fun he => h (Except.error.inj he))
  | .ok x, .ok y =>
    if h : x = y then isTrue (by subst h; rfl) else isFalse (fun he => h (Except.ok.inj he))
  | .error _, .ok _ => isFalse (fun he => Except.noConfusion he)
  | .ok _, .error _ => isFalse (fun he => Except.noConfusion he)

/-- Fuel-driven big-endian byte expansion: digits of n in base 256, most
significant first, empty for 0.  Fuel n is always sufficient. -/
def beBytesAux : Nat → Nat → List Nat
  | 0, _ => []
  | fuel + 1, n => if n = 0 then [] else beBytesAux fuel (n / 256) ++ [n % 256]

/-- numToBuffer (src/whammy.js lines 62-69): minimal big-endian bytes of a
non-negative integer (used for element ids, all below 2^31). -/
def numToBuffer (n : Nat) : List Nat := beBytesAux n n

/-- The ToInt32 coercion JavaScript applies to every operand of a bitwise
operator: reduce mod 2^32 and interpret as a signed two-complement value. -/
def toInt32 (n : Int) : Int :=
  let m := n % 4294967296
  if m < 2147483648 then m else m - 4294967296

/-- Loop body of numToFixedBuffer: byte (size-1) is x & 0xff, then x becomes
x >> 8 (arithmetic shift on the int32 value, i.e. floor division by 256),
filling the buffer from the last byte towards the first. -/
def fixedBytesAux : Int → Nat → List Nat
  | _, 0 => []
  | x, size + 1 => fixedBytesAux (Int.fdiv x 256) size ++ [(x % 256).toNat]

/-- numToFixedBuffer (src/whammy.js lines 74-81): exactly size bytes derived
from the int32 coercion of num by repeated & 0xff and >> 8. -/
def numToFixedBuffer (num : Int) (size : Nat) : List Nat :=
  fixedBytesAux (toInt32 num) size

/-- strToBuffer (src/whammy.js lines 86-92): charCodeAt values stored into a
Uint8Array, hence truncated mod 256. -/
def strToBuffer (s : List Nat) : List Nat := s.map (· % 256)

/-- Value of a bit string read as a binary numeral (parseInt with radix 2,
restricted to the 8-bit chunks bitsToBuffer feeds it). -/
def bitsVal (bs : List Bool) : Nat :=
  bs.foldl (fun a b => 2 * a + (if b then 1 else 0)) 0

/-- Fuel-driven chunking of a bit string into bytes of 8 bits each. -/
def chunkBytesAux : Nat → List Bool → List Nat
  | 0, _ => []
  | _ + 1, [] => []
  | fuel + 1, l@(_ :: _) => bitsVal (l.take 8) :: chunkBytesAux fuel (l.drop 8)

/-- bitsToBuffer (src/whammy.js lines 97-107): left-pad the bit string with
zero bits to a multiple of 8, then pack each 8-bit group into one byte. -/
def bitsToBuffer (bs : List Bool) : List Nat :=
  chunkBytesAux (List.replicate ((8 - bs.length % 8) % 8) false ++ bs).length
    (List.replicate ((8 - bs.length % 8) % 8) false ++ bs)

/-- Fuel-driven binary expansion, most significant bit first, empty for 0. -/
def natBitsAux : Nat → Nat → List Bool
  | 0, _ => []
  | fuel + 1, n => if n = 0 then [] else natBitsAux fuel (n / 2) ++ [decide (n % 2 = 1)]

/-- Number.toString with radix 2: the string "0" for 0, otherwise the
minimal binary expansion. -/
def natBits (n : Nat) : List Bool := if n = 0 then [false] else natBitsAux n n

/-- Fuel-driven bit length: number of binary digits of n, 0 for 0. -/
def bitlenAux : Nat → Nat → Nat
  | 0, _ => 0
  | fuel + 1, n => if n = 0 then 0 else bitlenAux fuel (n / 2) + 1

/-- Bit length of a natural number (length of toString with radix 2 when
n is positive, 0 when n = 0). -/
def bitlen (n : Nat) : Nat := bitlenAux n n

/-- Exact value of Math.ceil (Math.log len / Math.log 2) for len >= 1:
the ceiling of log2 equals the bit length of len - 1. -/
def ceilLog2 (n : Nat) : Nat := bitlen (n - 1)

/-- The EBML size descriptor generateEBML builds (src/whammy.js lines
164-171), for a positive content length: zeroes = ceil (ceil (log2 len) / 8)
leading zero bits, a marker bit, and the length bits left-padded with
String.repeat to 7 * zeroes + 7 + 1 - (digit count) zeros. -/
def vintRaw (len : Nat) : List Nat :=
  let zeroes := (ceilLog2 len + 7) / 8
  let sizeStr := natBits len
  let padded := List.replicate (zeroes * 7 + 7 + 1 - sizeStr.length) false ++ sizeStr
  bitsToBuffer (List.replicate zeroes false ++ [true] ++ padded)

/-- Size descriptor emission including the failure at content length 0:
Math.log 0 is minus infinity, so the String.repeat count is negative and a
RangeError is thrown. -/
def vintBytes (len : Nat) : Except MuxError (List Nat) :=
  if len = 0 then .error .vintRange else .ok (vintRaw len)

/-- Big-endian value of a byte list (reference helper for the decoder). -/
def beVal (bs : List Nat) : Nat := bs.foldl (fun a b => 256 * a + b) 0

/-- Reference EBML VINT decoder: the number of leading zero bits of the
first byte gives the number of extra bytes z; the value is the first byte
without its marker bit, followed by the next z bytes big-endian.  Returns
the decoded value and the descriptor byte count, or none when the input is
not a well-formed VINT of the available length. -/
def vintDecode : List Nat → Option (Nat × Nat)
  | [] => none
  | b :: rest =>
    if b = 0 then none
    else
      let z := 8 - bitlen b
      if rest.length < z then none
      else some ((b - 2 ^ (7 - z)) * 256 ^ z + beVal (rest.take z), z + 1)

/-- Minimal EBML VINT descriptor byte count for a content length: the least
k >= 1 such that len fits in 7 * k value bits. -/
def minVintLen (len : Nat) : Nat := max 1 ((bitlen len + 6) / 7)

/-- makeSimpleBlock header and payload (src/whammy.js lines 183-202), the
successful branch: the flag byte is assembled by or-ing 128 for keyframe, 8
for invisible, lacing shifted left by one, and 1 for discardable; the
header is track | 0x80, timecode >> 8, timecode & 0xff, flags, followed by
the frame bytes. -/
def simpleBlockData (trackNum timecode : Nat) (keyframe invisible : Bool)
    (lacing : Nat) (discardable : Bool) (frame : List Nat) : List Nat :=
  let flags := (((if keyframe then 128 else 0) ||| (if invisible then 8 else 0)) |||
    (lacing <<< 1)) ||| (if discardable then 1 else 0)
  (trackNum ||| 128) :: (timecode >>> 8) :: (timecode &&& 255) :: flags :: frame

/-- makeSimpleBlock including its guard: track numbers above 127 are
rejected. -/
def makeSimpleBlock (trackNum timecode : Nat) (keyframe invisible : Bool)
    (lacing : Nat) (discardable : Bool) (frame : List Nat) :
    Except MuxError (List Nat) :=
  if 127 < trackNum then .error .trackNumberTooBig
  else .ok (simpleBlockData trackNum timecode keyframe invisible lacing discardable frame)

/-- The three-byte VP8 keyframe start marker 0x9d 0x01 0x2a. -/
def vp8Marker : List Nat := [157, 1, 42]

/-- Search loop of String.indexOf restricted to our fixed pattern:
returns the first index at which pat is a prefix of the remaining list. -/
def listIndexOfAux (pat : List Nat) : List Nat → Nat → Option Nat
  | [], _ => none
  | l@(_ :: rest), i => if pat.isPrefixOf l then some i else listIndexOfAux pat rest (i + 1)

/-- String.indexOf: index of the first occurrence, or -1. -/
def listIndexOf (l pat : List Nat) : Int :=
  match listIndexOfAux pat l 0 with
  | some i => (i : Int)
  | none => -1

/-- charCodeAt as consumed by the bitwise arithmetic that follows it in
parseWebP: an out-of-range index yields NaN, which ToInt32 coerces to 0.
The index is never negative at the use sites (it is at least 2). -/
def jsCharCode (l : List Nat) (i : Int) : Nat := l.getD i.toNat 0

/-- Result record of parseWebP (src/whammy.js lines 241-266); the riff
field, which merely echoes part of the input, is omitted. -/
structure WebPData where
  width : Nat
  height : Nat
  data : List Nat
  horizontalScale : Nat
  verticalScale : Nat
deriving DecidableEq

/-- parseWebP on the extracted leaf payload (the VP8 string
riff.RIFF[0].WEBP[0]): locate the keyframe marker with indexOf, read the 4
bytes after it as two little-endian 16-bit words, and split each word into
a 14-bit dimension and a 2-bit scale factor.  There is no check that the
marker was found: when indexOf returns -1 the bytes at offsets 2..5 are
read instead. -/
def parseWebP (vp8 : List Nat) : WebPData :=
  ⟨((jsCharCode vp8 (listIndexOf vp8 vp8Marker + 3 + 1) <<< 8) |||
      jsCharCode vp8 (listIndexOf vp8 vp8Marker + 3 + 0)) &&& 16383,
    ((jsCharCode vp8 (listIndexOf vp8 vp8Marker + 3 + 3) <<< 8) |||
      jsCharCode vp8 (listIndexOf vp8 vp8Marker + 3 + 2)) &&& 16383,
    vp8,
    ((jsCharCode vp8 (listIndexOf vp8 vp8Marker + 3 + 1) <<< 8) |||
      jsCharCode vp8 (listIndexOf vp8 vp8Marker + 3 + 0)) >>> 14,
    ((jsCharCode vp8 (listIndexOf vp8 vp8Marker + 3 + 3) <<< 8) |||
      jsCharCode vp8 (listIndexOf vp8 vp8Marker + 3 + 2)) >>> 14⟩

/-- A frame as consumed by toWebM: the webp payload string, the display
duration in milliseconds, and the dimensions.  Durations are natural
numbers, following the data model of the specification (non-negative
integers); the lower-bound half of the duration check in validateFrames is
therefore vacuous here. -/
structure WFrame where
  data : List Nat
  duration : Nat
  width : Nat
  height : Nat
deriving DecidableEq

instance : Inhabited WFrame := ⟨⟨[], 0, 0, 0⟩⟩

/-- Validation loop of validateFrames (src/whammy.js lines 38-54), which
starts at index 1: the frame with JavaScript index i is reported as frame
i + 1; acc accumulates the total duration. -/
def validateLoop (w h : Nat) : List WFrame → Nat → Nat → Except MuxError Nat
  | [], _, acc => .ok acc
  | f :: rest, i, acc =>
    if f.width ≠ w then .error (.inconsistentWidth (i + 1))
    else if f.height ≠ h then .error (.inconsistentHeight (i + 1))
    else if 32767 < f.duration then .error (.invalidDuration (i + 1))
    else validateLoop w h rest (i + 1) (acc + f.duration)

/-- validateFrames (src/whammy.js lines 30-57): rejects an empty list,
takes width and height from frame 0, starts the total duration at the
duration of frame 0, and checks dimensions and duration of every subsequent frame.
Returns (total duration, width, height). -/
def validateFrames : List WFrame → Except MuxError (Nat × Nat × Nat)
  | [] => .error .noFrames
  | f :: rest =>
    (validateLoop f.width f.height rest 1 f.duration).map fun d => (d, f.width, f.height)

/-- Sum of the durations of a list of frames. -/
def durSum (fs : List WFrame) : Nat := (fs.map WFrame.duration).sum

/-- The do-while loop collecting one cluster (src/whammy.js lines 370-374):
always take the first frame, then keep taking frames while the accumulated
cluster duration stays below 30000. -/
def clusterGo (acc : Nat) : List WFrame → List WFrame × List WFrame
  | [] => ([], [])
  | f :: rest =>
    if acc + f.duration < 30000 then
      ((f :: (clusterGo (acc + f.duration) rest).1), (clusterGo (acc + f.duration) rest).2)
    else ([f], rest)

/-- Fuel-driven outer cluster loop; fuel equal to the frame count is always
sufficient because each cluster consumes at least one frame. -/
def clustersAux : Nat → List WFrame → List (List WFrame)
  | 0, _ => []
  | _ + 1, [] => []
  | fuel + 1, f :: rest =>
    (clusterGo 0 (f :: rest)).1 :: clustersAux fuel (clusterGo 0 (f :: rest)).2

/-- Partition of the frame list into clusters, as performed by the while
loop of toWebM (src/whammy.js lines 349-401). -/
def clusters (fs : List WFrame) : List (List WFrame) := clustersAux fs.length fs

/-- String.slice with a possibly negative start index. -/
def jsSlice (l : List Nat) (i : Int) : List Nat :=
  if i < 0 then l.drop ((l.length + i).toNat) else l.drop i.toNat

/-- The frame bitstream put into a SimpleBlock (src/whammy.js line 386):
webp.data.slice(webp.data.indexOf(marker) - 3). -/
def frameSlice (data : List Nat) : List Nat :=
  jsSlice data (listIndexOf data vp8Marker - 3)

/-- The element tree fed to generateEBML: raw pre-rendered bytes (elements
without an id), numeric data without a size (minimal binary rendering),
numeric data with a fixed size, string data, and nested element lists. -/
inductive EBMLEl where
  | raw (bytes : List Nat)
  | num (id : Nat) (value : Nat)
  | fixed (id : Nat) (value : Int) (size : Nat)
  | str (id : Nat) (s : List Nat)
  | node (id : Nat) (children : List EBMLEl)

instance : Inhabited EBMLEl := ⟨.raw []⟩

/-- Emission of one element with an id: minimal big-endian id bytes, the
size descriptor for the content length, then the content. -/
def wrapEl (id : Nat) (content : List Nat) : Except MuxError (List Nat) := do
  let sizeBytes ← vintBytes content.length
  pure (numToBuffer id ++ sizeBytes ++ content)

mutual
/-- generateEBML (src/whammy.js lines 138-178) on a single element:
resolve the data to bytes, then emit id, size descriptor and data. -/
def serEl : EBMLEl → Except MuxError (List Nat)
  | .raw b => .ok b
  | .num id v => wrapEl id (bitsToBuffer (natBits v))
  | .fixed id v size => wrapEl id (numToFixedBuffer v size)
  | .str id s => wrapEl id (strToBuffer s)
  | .node id children => do
    let content ← serList children
    wrapEl id content
/-- generateEBML on a list of elements: concatenation of the renderings
(with raw elements passed through verbatim). -/
def serList : List EBMLEl → Except MuxError (List Nat)
  | [] => .ok []
  | e :: rest => do
    let hd ← serEl e
    let tl ← serList rest
    pure (hd ++ tl)
end

/-- Character codes of an ASCII string literal. -/
def asciiBytes (s : String) : List Nat := s.data.map Char.toNat

/-- createEBMLHeader (src/whammy.js lines 271-284). -/
def ebmlHeaderEl : EBMLEl :=
  .node 0x1a45dfa3 [
    .num 0x4286 1, .num 0x42f7 1, .num 0x42f2 4, .num 0x42f3 8,
    .str 0x4282 (asciiBytes "webm"), .num 0x4287 2, .num 0x4285 2]

/-- Big-endian fixed-width byte encoding of n mod 2^(8 * size).  This is
the reference encoder following the words of the specification for
fixedBigEndian (truncating or zero-extending n to exactly size bytes); it
also serves to lay out the IEEE-754 bit pattern below. -/
def beFixedRef : Nat → Nat → List Nat
  | _, 0 => []
  | n, size + 1 => beFixedRef (n / 256) size ++ [n % 256]

/-- doubleToString (src/whammy.js lines 112-119): the 8 bytes of the
IEEE-754 binary64 representation, reversed from the little-endian typed
array buffer, hence big-endian.  Exact for every n < 2^53 (the model
truncates instead of rounding above that, which no reachable duration
attains). -/
def doubleBytes (n : Nat) : List Nat :=
  if n = 0 then List.replicate 8 0
  else beFixedRef ((1023 + (bitlen n - 1)) * 2 ^ 52 + (n * 2 ^ 52 / 2 ^ (bitlen n - 1) - 2 ^ 52)) 8

/-- createSegmentInfo (src/whammy.js lines 289-299). -/
def segmentInfoEl (duration : Nat) : EBMLEl :=
  .node 0x1549a966 [
    .num 0x2ad7b1 1000000,
    .str 0x4d80 (asciiBytes "whammy"),
    .str 0x5741 (asciiBytes "whammy"),
    .str 0x4489 (doubleBytes duration)]

/-- createTracks (src/whammy.js lines 304-327). -/
def tracksEl (width height : Nat) : EBMLEl :=
  .node 0x1654ae6b [
    .node 0xae [
      .num 0xd7 1, .num 0x73c5 1, .num 0x9c 0,
      .str 0x22b59c (asciiBytes "und"),
      .str 0x86 (asciiBytes "V_VP8"),
      .str 0x258688 (asciiBytes "VP8"),
      .num 0x83 1,
      .node 0xe0 [.num 0xb0 width, .num 0xba height]]]

/-- One CuePoint (src/whammy.js lines 350-362): cue time, cue track 1, and
the CueClusterPosition stored with fixed size 8. -/
def cuePointEl (time : Nat) (pos : Int) : EBMLEl :=
  .node 0xbb [
    .num 0xb3 time,
    .node 0xb7 [.num 0xf7 1, .fixed 0xf1 pos 8]]

/-- The Cues element holding one CuePoint per cluster. -/
def cuesEl (tps : List (Nat × Int)) : EBMLEl :=
  .node 0x1c53bb6b (tps.map fun tp => cuePointEl tp.1 tp.2)

/-- The SimpleBlock elements of one cluster (src/whammy.js lines 383-396):
the running counter starts at 0 and advances by the duration of each frame;
every block is packed with keyframe 1, invisible 0, lacing 0, discardable
0, track 1 and the sliced frame bitstream. -/
def clusterBlocks : List WFrame → Nat → List EBMLEl
  | [], _ => []
  | f :: rest, counter =>
    .str 0xa3 (simpleBlockData 1 counter true false 0 false (frameSlice f.data)) ::
      clusterBlocks rest (counter + f.duration)

/-- One Cluster element (src/whammy.js lines 377-397): the cluster timecode
followed by the SimpleBlocks. -/
def clusterEl (timecode : Nat) (cframes : List WFrame) : EBMLEl :=
  .node 0x1f43b675 (.num 0xe7 timecode :: clusterBlocks cframes 0)

/-- Cluster start times: the running clusterTimecode of toWebM, advanced by
the duration of each cluster. -/
def startTimesAux (t : Nat) : List (List WFrame) → List Nat
  | [] => []
  | c :: rest => t :: startTimesAux (t + durSum c) rest

/-- Start time of every cluster (0 for the first). -/
def startTimes (cls : List (List WFrame)) : List Nat := startTimesAux 0 cls

/-- The positions assigned to the cue placeholders in the layout loop
(src/whammy.js lines 404-414): before rendering cluster n the accumulated
position, i.e. base plus the lengths of the clusters before it. -/
def positionsFrom (base : Nat) : List Nat → List Nat
  | [] => []
  | len :: rest => base :: positionsFrom (base + len) rest

/-- All intermediate products of toWebM needed to state the layout
invariants: the final output, the assigned cue positions, and the rendered
bytes of the Segment children as they appear in the final output. -/
structure MuxResult where
  output : List Nat
  cuePositions : List Nat
  infoBytes : List Nat
  tracksBytes : List Nat
  cuesBytes : List Nat
  clusterBytes : List (List Nat)
deriving DecidableEq

instance : Inhabited MuxResult := ⟨⟨[], [], [], [], [], []⟩⟩

/-- Rendering loop over the clusters, one serialization per cluster, in
order (each pair carries the cluster start time and its frames). -/
def serClusters : List (Nat × List WFrame) → Except MuxError (List (List Nat))
  | [] => .ok []
  | tc :: rest => do
    let b ← serEl (clusterEl tc.1 tc.2)
    let bs ← serClusters rest
    pure (b :: bs)

/-- toWebM (src/whammy.js lines 332-417): validate, partition into
clusters, build the element trees, render Info, Tracks, the Cues skeleton
(with placeholder position 0) and every Cluster, assign to each CuePoint
the accumulated byte position before its cluster, and render the final
document with the finalized Cues and the pre-rendered bytes of the other
Segment children. -/
def muxFull (frames : List WFrame) : Except MuxError MuxResult := do
  let info ← validateFrames frames
  let infoBytes ← serEl (segmentInfoEl info.1)
  let tracksBytes ← serEl (tracksEl info.2.1 info.2.2)
  let cuesSkeleton ← serEl (cuesEl ((startTimes (clusters frames)).map fun t => (t, 0)))
  let clusterBytes ← serClusters ((startTimes (clusters frames)).zip (clusters frames))
  let cuesBytes ← serEl (cuesEl ((startTimes (clusters frames)).zip
    ((positionsFrom (infoBytes.length + tracksBytes.length + cuesSkeleton.length)
      (clusterBytes.map List.length)).map Int.ofNat)))
  let output ← serList [ebmlHeaderEl,
    .node 0x18538067 ([.raw infoBytes, .raw tracksBytes,
      cuesEl ((startTimes (clusters frames)).zip
        ((positionsFrom (infoBytes.length + tracksBytes.length + cuesSkeleton.length)
          (clusterBytes.map List.length)).map Int.ofNat))] ++
      clusterBytes.map EBMLEl.raw)]
  pure ⟨output,
    positionsFrom (infoBytes.length + tracksBytes.length + cuesSkeleton.length)
      (clusterBytes.map List.length),
    infoBytes, tracksBytes, cuesBytes, clusterBytes⟩

/-- The muxer entry point: just the output bytes. -/
def toWebM (frames : List WFrame) : Except MuxError (List Nat) :=
  (muxFull frames).map MuxResult.output

/-! Helper lemmas. -/

theorem exbind_ok {α β : Type} (a : α) (f : α → Except MuxError β) :
    (Except.ok a >>= f) = f a := rfl

theorem exbind_error {α β : Type} (e : MuxError) (f : α → Except MuxError β) :
    ((Except.error e : Except MuxError α) >>= f) = .error e := rfl

theorem fixedBytesAux_length : ∀ (k : Nat) (x : Int), (fixedBytesAux x k).length = k := by
  intro k
  induction k with
  | zero => intro x; rfl
  | succ n ih => intro x; simp [fixedBytesAux, ih]

theorem numToFixedBuffer_length (v : Int) (s : Nat) : (numToFixedBuffer v s).length = s :=
  fixedBytesAux_length s _

theorem fixedBytesAux_ofNat : ∀ (k : Nat) (m : Nat), fixedBytesAux (m : Int) k = beFixedRef m k := by
  intro k
  induction k with
  | zero => intro m; rfl
  | succ n ih =>
    intro m
    have hdiv : Int.fdiv (m : Int) 256 = ((m / 256 : Nat) : Int) := (Int.ofNat_fdiv m 256).symm
    have hmod : ((m : Int) % 256).toNat = m % 256 := by omega
    rw [fixedBytesAux, beFixedRef, hdiv, ih (m / 256), hmod]

theorem toInt32_small (m : Nat) (h : m < 2 ^ 31) : toInt32 (m : Int) = (m : Int) := by
  have h32 : (m : Int) % 4294967296 = (m : Int) := by
    apply Int.emod_eq_of_lt (by positivity)
    have : (m : Int) < 2 ^ 31 := by exact_mod_cast h
    omega
  simp only [toInt32, h32]
  rw [if_pos]
  have : (m : Int) < 2 ^ 31 := by exact_mod_cast h
  omega

theorem lor_shift8 (b1 b0 : Nat) (h : b0 < 256) : (b1 <<< 8) ||| b0 = b1 * 256 + b0 := by
  have h8 : b0 < 2 ^ 8 := lt_of_lt_of_eq h (by norm_num)
  have key := Nat.mul_add_lt_is_or h8 b1
  calc (b1 <<< 8) ||| b0 = 2 ^ 8 * b1 ||| b0 := by rw [Nat.shiftLeft_eq, Nat.mul_comm]
    _ = 2 ^ 8 * b1 + b0 := key.symm
    _ = b1 * 256 + b0 := by ring

theorem word_land (w : Nat) : w &&& 16383 = w % 16384 := by
  have h := Nat.and_pow_two_sub_one_eq_mod w 14
  norm_num at h
  exact h

theorem word_shr (w : Nat) : w >>> 14 = w / 16384 := by
  rw [Nat.shiftRight_eq_div_pow]

theorem getD_lt_256 (p : List Nat) (h : ∀ b ∈ p, b < 256) (k : Nat) : p.getD k 0 < 256 := by
  by_cases hk : k < p.length
  · rw [List.getD_eq_getElem _ _ hk]
    exact h _ (List.getElem_mem hk)
  · rw [List.getD_eq_default _ _ (le_of_not_lt hk)]
    norm_num

/-- Claim C1: the size descriptor the serializer emits for a content length
L should be a well-formed minimal EBML VINT decoding back to L.  The code
violates this: at L = 1 it emits the two bytes 0x01 0x01, which the
reference decoder rejects (the leading byte announces an 8-byte VINT),
while the minimal descriptor is the single byte 0x81 decoding to 1; and at
L = 0 the computation throws a RangeError. -/
theorem vintSize_bug :
    vintBytes 1 = .ok [1, 1] ∧
    vintDecode [1, 1] = none ∧
    minVintLen 1 = 1 ∧
    vintDecode [129] = some (1, 1) ∧
    vintBytes 0 = .error .vintRange := by
  decide

/-- Claim C9 (amended): numToFixedBuffer always returns exactly width
bytes, independent of the value; and for 0 <= n < 2^31 the bytes are the
big-endian encoding of n truncated or zero-extended to width bytes.  For
larger n the JavaScript bitwise operators coerce the value through ToInt32
first, so the encoding of n mod 2^(8 * width) is not produced (see the
counterexample). -/
theorem numToFixedBuffer_spec (n w : Nat) :
    (numToFixedBuffer (n : Int) w).length = w ∧
    (n < 2 ^ 31 → numToFixedBuffer (n : Int) w = beFixedRef n w) := by
  constructor
  · exact numToFixedBuffer_length _ _
  · intro h
    unfold numToFixedBuffer
    rw [toInt32_small n h, fixedBytesAux_ofNat]

/-- Witness for the amended claim C9 at n = 5, w = 8. -/
theorem numToFixedBuffer_spec_witness :
    (numToFixedBuffer ((5 : Nat) : Int) 8).length = 8 ∧
    numToFixedBuffer ((5 : Nat) : Int) 8 = beFixedRef 5 8 :=
  ⟨(numToFixedBuffer_spec 5 8).1, (numToFixedBuffer_spec 5 8).2 (by norm_num)⟩

/-- Counterexample to claim C9 as stated: 2^32 is representable in 64 bits,
but numToFixedBuffer encodes it as eight zero bytes (ToInt32 maps 2^32 to
0), not as the big-endian encoding of 2^32 mod 2^64, which has a 1 in byte
3. -/
theorem numToFixedBuffer_wide_cex :
    numToFixedBuffer ((4294967296 : Nat) : Int) 8 = [0, 0, 0, 0, 0, 0, 0, 0] ∧
    beFixedRef 4294967296 8 = [0, 0, 0, 1, 0, 0, 0, 0] ∧
    numToFixedBuffer ((4294967296 : Nat) : Int) 8 ≠ beFixedRef 4294967296 8 := by
  refine ⟨?_, ?_, ?_⟩ <;> decide

/-- Claim C5: makeSimpleBlock fails exactly when the track number exceeds
127; on success the output is the four header bytes 0x80 + track, timecode
high byte, timecode low byte, and the flag byte with bit 7 = keyframe, bit
3 = invisible, bits 1-2 = lacing, bit 0 = discardable, followed by the
frame bytes unchanged. -/
theorem makeSimpleBlock_spec (tn tc : Nat) (kf inv : Bool) (lac : Nat) (disc : Bool)
    (fr : List Nat) :
    ((makeSimpleBlock tn tc kf inv lac disc fr).isOk = true ↔ tn ≤ 127) ∧
    (tn ≤ 127 → tc < 65536 → lac < 4 →
      makeSimpleBlock tn tc kf inv lac disc fr =
        .ok ((128 + tn) :: (tc / 256) :: (tc % 256) ::
          ((if kf then 128 else 0) + (if inv then 8 else 0) + 2 * lac +
            (if disc then 1 else 0)) :: fr)) := by
  constructor
  · unfold makeSimpleBlock
    split
    · rename_i hgt
      simp only [Except.isOk, Except.toBool]
      constructor
      · intro hfalse; cases hfalse
      · intro hle; omega
    · rename_i hle
      simp only [Except.isOk, Except.toBool]
      constructor
      · intro _; omega
      · intro _; trivial
  · intro h1 h2 h3
    unfold makeSimpleBlock
    rw [if_neg (by omega)]
    unfold simpleBlockData
    have hb0 : tn ||| 128 = 128 + tn := by
      rw [Nat.lor_comm]
      have h8 : tn < 2 ^ 7 := by
        have : (2 : Nat) ^ 7 = 128 := by norm_num
        omega
      have key := Nat.mul_add_lt_is_or h8 1
      calc (128 : Nat) ||| tn = 2 ^ 7 * 1 ||| tn := by norm_num
        _ = 2 ^ 7 * 1 + tn := key.symm
        _ = 128 + tn := by norm_num
    have hb1 : tc >>> 8 = tc / 256 := by rw [Nat.shiftRight_eq_div_pow]
    have hb2 : tc &&& 255 = tc % 256 := by
      have h := Nat.and_pow_two_sub_one_eq_mod tc 8
      norm_num at h
      exact h
    have hflags : (((if kf then 128 else 0) ||| (if inv then 8 else 0)) |||
        (lac <<< 1)) ||| (if disc then 1 else 0) =
        (if kf then 128 else 0) + (if inv then 8 else 0) + 2 * lac +
          (if disc then 1 else 0) := by
      interval_cases lac <;> cases kf <;> cases inv <;> cases disc <;> decide
    rw [hb0, hb1, hb2, hflags]

/-- Witness for claim C5: the 127 boundary succeeds with the stated header
bytes, and 128 fails. -/
theorem makeSimpleBlock_spec_witness :
    makeSimpleBlock 127 258 true false 0 false [5] = .ok [255, 1, 2, 128, 5] ∧
    (makeSimpleBlock 128 0 true false 0 false []).isOk = false := by
  constructor
  · have h := (makeSimpleBlock_spec 127 258 true false 0 false [5]).2
      (by norm_num) (by norm_num) (by norm_num)
    simpa using h
  · have h := (makeSimpleBlock_spec 128 0 true false 0 false []).1
    simp only [show ¬(128 ≤ 127) by omega, iff_false] at h
    simpa using h

/-- Claim C8: when the keyframe marker occurs in the payload, parseWebP
reads the 4 bytes after it as two little-endian 16-bit words; width and
height are the low 14 bits and the scale factors the high 2 bits of the
respective words, and the payload is returned unchanged. -/
theorem parseWebP_marker_spec (p : List Nat) (i : Nat)
    (hfs : listIndexOf p vp8Marker = (i : Int))
    (hlen : i + 7 ≤ p.length)
    (hb : ∀ b ∈ p, b < 256) :
    parseWebP p = ⟨(p.getD (i + 4) 0 * 256 + p.getD (i + 3) 0) % 16384,
      (p.getD (i + 6) 0 * 256 + p.getD (i + 5) 0) % 16384, p,
      (p.getD (i + 4) 0 * 256 + p.getD (i + 3) 0) / 16384,
      (p.getD (i + 6) 0 * 256 + p.getD (i + 5) 0) / 16384⟩ := by
  have h0 : jsCharCode p ((i : Int) + 3 + 0) = p.getD (i + 3) 0 := by
    unfold jsCharCode; congr 1
  have h1 : jsCharCode p ((i : Int) + 3 + 1) = p.getD (i + 4) 0 := by
    unfold jsCharCode; congr 1
  have h2 : jsCharCode p ((i : Int) + 3 + 2) = p.getD (i + 5) 0 := by
    unfold jsCharCode; congr 1
  have h3 : jsCharCode p ((i : Int) + 3 + 3) = p.getD (i + 6) 0 := by
    unfold jsCharCode; congr 1
  unfold parseWebP
  rw [hfs, h0, h1, h2, h3]
  rw [lor_shift8 _ _ (getD_lt_256 p hb _), lor_shift8 _ _ (getD_lt_256 p hb _)]
  rw [word_land, word_land, word_shr, word_shr]

/-- Witness for claim C8 on a crafted payload: marker at index 1, followed
by the words 0x8040 (width 64, horizontal scale 2) and 0x402C (height 44,
vertical scale 1). -/
theorem parseWebP_marker_spec_witness :
    parseWebP [0, 157, 1, 42, 64, 128, 44, 64] =
      ⟨64, 44, [0, 157, 1, 42, 64, 128, 44, 64], 2, 1⟩ := by
  have h := parseWebP_marker_spec [0, 157, 1, 42, 64, 128, 44, 64] 1
    (by decide) (by norm_num) (by decide)
  rw [h]
  decide

/-- Counterexample to claim C4 as stated: this payload does not contain the
keyframe marker, yet parseWebP does not fail; indexOf returns -1, the bytes
at offsets 2..5 are read, and a normal result is returned. -/
theorem parseWebP_no_marker_cex :
    listIndexOf [10, 20, 30, 40, 50, 60] vp8Marker = -1 ∧
    parseWebP [10, 20, 30, 40, 50, 60] = ⟨10270, 15410, [10, 20, 30, 40, 50, 60], 0, 0⟩ := by
  constructor <;> decide

/-- Claim C4 (amended): when the keyframe marker is absent parseWebP does
not fail; indexOf yields -1, so the four bytes at offsets 2..5 of the
payload are read as the two dimension words and a normal result is
returned to the caller. -/
theorem parseWebP_no_marker_spec (p : List Nat)
    (hfs : listIndexOf p vp8Marker = -1)
    (hlen : 6 ≤ p.length)
    (hb : ∀ b ∈ p, b < 256) :
    parseWebP p = ⟨(p.getD 3 0 * 256 + p.getD 2 0) % 16384,
      (p.getD 5 0 * 256 + p.getD 4 0) % 16384, p,
      (p.getD 3 0 * 256 + p.getD 2 0) / 16384,
      (p.getD 5 0 * 256 + p.getD 4 0) / 16384⟩ := by
  have h0 : jsCharCode p ((-1 : Int) + 3 + 0) = p.getD 2 0 := by
    unfold jsCharCode; congr 1
  have h1 : jsCharCode p ((-1 : Int) + 3 + 1) = p.getD 3 0 := by
    unfold jsCharCode; congr 1
  have h2 : jsCharCode p ((-1 : Int) + 3 + 2) = p.getD 4 0 := by
    unfold jsCharCode; congr 1
  have h3 : jsCharCode p ((-1 : Int) + 3 + 3) = p.getD 5 0 := by
    unfold jsCharCode; congr 1
  unfold parseWebP
  rw [hfs, h0, h1, h2, h3]
  rw [lor_shift8 _ _ (getD_lt_256 p hb _), lor_shift8 _ _ (getD_lt_256 p hb _)]
  rw [word_land, word_land, word_shr, word_shr]

/-- Witness for the amended claim C4 on a concrete marker-free payload. -/
theorem parseWebP_no_marker_spec_witness :
    parseWebP [1, 2, 3, 4, 5, 6, 7] = ⟨1027, 1541, [1, 2, 3, 4, 5, 6, 7], 0, 0⟩ := by
  have h := parseWebP_no_marker_spec [1, 2, 3, 4, 5, 6, 7]
    (by decide) (by norm_num) (by decide)
  rw [h]
  decide

theorem except_isOk_map {α β : Type} (x : Except MuxError α) (f : α → β) :
    (x.map f).isOk = x.isOk := by
  cases x <;> rfl

theorem validateLoop_isOk (rest : List WFrame) : ∀ (w h i acc : Nat),
    (validateLoop w h rest i acc).isOk = true ↔
      ∀ g ∈ rest, g.width = w ∧ g.height = h ∧ g.duration ≤ 32767 := by
  induction rest with
  | nil =>
    intro w h i acc
    simp [validateLoop, Except.isOk, Except.toBool]
  | cons f r ih =>
    intro w h i acc
    simp only [validateLoop, List.forall_mem_cons]
    split_ifs with h1 h2 h3
    · simp only [Except.isOk, Except.toBool]
      constructor
      · intro hfalse; cases hfalse
      · intro hc; exact absurd hc.1.1 h1
    · simp only [Except.isOk, Except.toBool]
      constructor
      · intro hfalse; cases hfalse
      · intro hc; exact absurd hc.1.2.1 h2
    · simp only [Except.isOk, Except.toBool]
      constructor
      · intro hfalse; cases hfalse
      · intro hc; omega
    · rw [ih w h (i + 1) (acc + f.duration)]
      constructor
      · intro hall
        exact ⟨⟨by omega, by omega, by omega⟩, hall⟩
      · intro hc; exact hc.2

/-- Claim C3 (amended): validation fails exactly when the frame list is
empty or some frame AFTER the first differs in width or height from frame 0
or has a duration outside [0, 32767]; frame 0 itself is never checked,
because the loop starts at index 1 (see the counterexample).  A validation
error propagates unchanged as the result of the whole muxing call, which
then produces no output. -/
theorem validateFrames_rules (frames : List WFrame) :
    ((validateFrames frames).isOk = true ↔
      ∃ f rest, frames = f :: rest ∧
        ∀ g ∈ rest, g.width = f.width ∧ g.height = f.height ∧ g.duration ≤ 32767) ∧
    (∀ e, validateFrames frames = .error e →
      muxFull frames = .error e ∧ toWebM frames = .error e) := by
  constructor
  · cases frames with
    | nil =>
      simp [validateFrames, Except.isOk, Except.toBool]
    | cons f rest =>
      rw [validateFrames, except_isOk_map, validateLoop_isOk]
      constructor
      · intro hall; exact ⟨f, rest, rfl, hall⟩
      · rintro ⟨f', rest', heq, hall⟩
        cases heq
        exact hall
  · intro e he
    have hmux : muxFull frames = .error e := by
      unfold muxFull
      rw [he]
      rfl
    refine ⟨hmux, ?_⟩
    unfold toWebM
    rw [hmux]
    rfl

/-- Witness for the amended claim C3: the empty frame list makes the whole
muxing call fail with the no-frames error. -/
theorem validateFrames_rules_witness :
    muxFull ([] : List WFrame) = .error .noFrames ∧
    toWebM ([] : List WFrame) = .error .noFrames :=
  (validateFrames_rules []).2 .noFrames rfl

set_option maxRecDepth 40000 in
/-- Counterexample to claim C3 as stated: a frame list whose (first) frame
has duration 40000, far outside [0, 32767], is accepted and muxed without
any error, because validateFrames only checks frames from index 1 on. -/
theorem validateFrames_duration_cex :
    (toWebM [⟨[0, 0, 0, 157, 1, 42, 64, 0, 64, 0], 40000, 64, 64⟩]).isOk = true := by
  decide

theorem durSum_nil : durSum [] = 0 := rfl

theorem durSum_cons (f : WFrame) (l : List WFrame) :
    durSum (f :: l) = f.duration + durSum l := by
  simp [durSum]

theorem clusterGo_append (l : List WFrame) : ∀ acc,
    (clusterGo acc l).1 ++ (clusterGo acc l).2 = l := by
  induction l with
  | nil => intro acc; rfl
  | cons f rest ih =>
    intro acc
    simp only [clusterGo]
    split
    · simp [ih]
    · rfl

theorem clusterGo_ne_nil (f : WFrame) (rest : List WFrame) (acc : Nat) :
    (clusterGo acc (f :: rest)).1 ≠ [] := by
  simp only [clusterGo]
  split <;> simp

theorem clusterGo_dropLast (l : List WFrame) : ∀ acc, acc < 30000 →
    acc + durSum (clusterGo acc l).1.dropLast < 30000 := by
  induction l with
  | nil =>
    intro acc h
    simpa [clusterGo, durSum] using h
  | cons f rest ih =>
    intro acc h
    simp only [clusterGo]
    split
    · rename_i hlt
      cases hc : (clusterGo (acc + f.duration) rest).1 with
      | nil =>
        simpa [durSum] using h
      | cons x xs =>
        have hrec := ih (acc + f.duration) hlt
        rw [hc] at hrec
        simp only [List.dropLast_cons₂, durSum_cons]
        omega
    · simpa [durSum] using h

theorem clusterGo_closed (l : List WFrame) : ∀ acc, (clusterGo acc l).2 ≠ [] →
    30000 ≤ acc + durSum (clusterGo acc l).1 := by
  induction l with
  | nil =>
    intro acc h
    exact absurd rfl h
  | cons f rest ih =>
    intro acc h
    simp only [clusterGo] at h ⊢
    split at h
    · rename_i hlt
      rw [if_pos hlt]
      have hrec := ih (acc + f.duration) h
      simp only [durSum_cons]
      omega
    · rename_i hge
      rw [if_neg hge]
      simp only [durSum_cons, durSum_nil]
      omega

theorem clusterGo_snd_len (f : WFrame) (rest : List WFrame) (acc : Nat) :
    (clusterGo acc (f :: rest)).2.length ≤ rest.length := by
  have happ := congrArg List.length (clusterGo_append (f :: rest) acc)
  rw [List.length_append] at happ
  have hne : (clusterGo acc (f :: rest)).1.length ≠ 0 := by
    simpa [List.length_eq_zero] using clusterGo_ne_nil f rest acc
  simp only [List.length_cons] at happ
  omega

theorem clustersAux_nil (fuel : Nat) : clustersAux fuel [] = [] := by
  cases fuel <;> rfl

theorem clustersAux_flatten : ∀ (fuel : Nat) (l : List WFrame), l.length ≤ fuel →
    (clustersAux fuel l).flatten = l := by
  intro fuel
  induction fuel with
  | zero =>
    intro l h
    have hl : l = [] := List.eq_nil_of_length_eq_zero (by omega)
    subst hl
    rfl
  | succ n ih =>
    intro l h
    cases l with
    | nil => rfl
    | cons f rest =>
      simp only [clustersAux, List.flatten_cons]
      rw [ih _ (le_trans (clusterGo_snd_len f rest 0)
        (by simp only [List.length_cons] at h; omega))]
      exact clusterGo_append (f :: rest) 0

theorem clustersAux_mem : ∀ (fuel : Nat) (l : List WFrame) (c : List WFrame),
    l.length ≤ fuel → c ∈ clustersAux fuel l →
    c ≠ [] ∧ durSum c.dropLast < 30000 := by
  intro fuel
  induction fuel with
  | zero =>
    intro l c h hc
    have hl : l = [] := List.eq_nil_of_length_eq_zero (by omega)
    subst hl
    simp [clustersAux] at hc
  | succ n ih =>
    intro l c h hc
    cases l with
    | nil => cases hc
    | cons f rest =>
      simp only [clustersAux, List.mem_cons] at hc
      cases hc with
      | inl heq =>
        subst heq
        refine ⟨clusterGo_ne_nil f rest 0, ?_⟩
        have := clusterGo_dropLast (f :: rest) 0 (by norm_num)
        simpa using this
      | inr hmem =>
        exact ih _ c (le_trans (clusterGo_snd_len f rest 0)
          (by simp only [List.length_cons] at h; omega)) hmem

theorem clustersAux_closed : ∀ (fuel : Nat) (l : List WFrame) (n : Nat),
    l.length ≤ fuel → n + 1 < (clustersAux fuel l).length →
    30000 ≤ durSum ((clustersAux fuel l).getD n []) := by
  intro fuel
  induction fuel with
  | zero =>
    intro l n h hn
    have hl : l = [] := List.eq_nil_of_length_eq_zero (by omega)
    subst hl
    simp [clustersAux] at hn
  | succ m ih =>
    intro l n h hn
    cases l with
    | nil => simp [clustersAux_nil] at hn
    | cons f rest =>
      simp only [clustersAux] at hn ⊢
      cases n with
      | zero =>
        simp only [List.getD_cons_zero]
        have htail : clustersAux m (clusterGo 0 (f :: rest)).2 ≠ [] := by
          intro hnil
          rw [hnil] at hn
          simp at hn
        have hsnd : (clusterGo 0 (f :: rest)).2 ≠ [] := by
          intro hnil
          rw [hnil, clustersAux_nil] at htail
          exact htail rfl
        have := clusterGo_closed (f :: rest) 0 hsnd
        simpa using this
      | succ k =>
        simp only [List.getD_cons_succ]
        apply ih _ k (le_trans (clusterGo_snd_len f rest 0)
          (by simp only [List.length_cons] at h; omega))
        simp only [List.length_cons] at hn
        omega

/-- Claim C6: each cluster is nonempty and was not closed before the
threshold was reached (the durations of all but its last frame sum to less
than 30000); every cluster except possibly the last one was closed because
its duration sum reached or exceeded 30000; and the durations
[10000, 10000, 10000, 10000] split into frames 0-2 and frame 3. -/
theorem cluster_partition (fs : List WFrame) :
    (∀ c ∈ clusters fs, c ≠ [] ∧ durSum c.dropLast < 30000) ∧
    (∀ n, n + 1 < (clusters fs).length → 30000 ≤ durSum ((clusters fs).getD n [])) ∧
    clusters (List.replicate 4 (⟨[], 10000, 0, 0⟩ : WFrame)) =
      [List.replicate 3 (⟨[], 10000, 0, 0⟩ : WFrame), [⟨[], 10000, 0, 0⟩]] :=
  ⟨fun c hc => clustersAux_mem fs.length fs c le_rfl hc,
    fun n hn => clustersAux_closed fs.length fs n le_rfl hn,
    by decide⟩

/-- Witness for claim C6 at the durations [10000, 10000, 10000, 10000]:
the first cluster is nonempty, its first two frames sum below the
threshold, and its full duration reaches the threshold. -/
theorem cluster_partition_witness :
    ((List.replicate 3 (⟨[], 10000, 0, 0⟩ : WFrame)) ≠ [] ∧
      durSum (List.replicate 3 (⟨[], 10000, 0, 0⟩ : WFrame)).dropLast < 30000) ∧
    30000 ≤ durSum ((clusters (List.replicate 4 (⟨[], 10000, 0, 0⟩ : WFrame))).getD 0 []) :=
  ⟨(cluster_partition (List.replicate 4 (⟨[], 10000, 0, 0⟩ : WFrame))).1
      (List.replicate 3 (⟨[], 10000, 0, 0⟩ : WFrame)) (by decide),
    (cluster_partition (List.replicate 4 (⟨[], 10000, 0, 0⟩ : WFrame))).2.1 0 (by decide)⟩

theorem clusterBlocks_length : ∀ (c : List WFrame) (acc : Nat),
    (clusterBlocks c acc).length = c.length := by
  intro c
  induction c with
  | nil => intro acc; rfl
  | cons f rest ih => intro acc; simp [clusterBlocks, ih]

/-- Claim C10: the partition loop neither drops, duplicates nor reorders
frames: the concatenation of the clusters is the input frame list, and
every cluster produces exactly one SimpleBlock per frame. -/
theorem cluster_frames_bijection (fs : List WFrame) :
    (clusters fs).flatten = fs ∧
    (clusters fs).map (fun c => (clusterBlocks c 0).length) = (clusters fs).map List.length := by
  refine ⟨clustersAux_flatten fs.length fs le_rfl, ?_⟩
  apply List.map_congr_left
  intro c _
  exact clusterBlocks_length c 0

theorem clusterBlocks_getD : ∀ (c : List WFrame) (acc k : Nat), k < c.length →
    (clusterBlocks c acc).getD k default =
      .str 0xa3 (simpleBlockData 1 (acc + durSum (c.take k)) true false 0 false
        (frameSlice ((c.getD k default).data))) := by
  intro c
  induction c with
  | nil =>
    intro acc k h
    simp at h
  | cons f rest ih =>
    intro acc k h
    cases k with
    | zero =>
      simp [clusterBlocks, durSum]
    | succ j =>
      simp only [clusterBlocks, List.getD_cons_succ, List.take_succ_cons, durSum_cons]
      rw [ih (acc + f.duration) j (by simpa using Nat.lt_of_succ_lt_succ h)]
      congr 2
      omega

/-- Claim C7: inside a cluster the k-th SimpleBlock carries the
cluster-relative timecode equal to the sum of the durations of the k
preceding frames of that cluster (0 for the first, and non-negative by
construction), packed with keyframe 1, invisible 0, lacing 0, discardable 0
and track 1; the packed bytes are 0x81, timecode high byte, timecode low
byte, flag byte 0x80, followed by the sliced frame bitstream; and three
frames of 1000 ms each form a single cluster (whose blocks then sit at
relative timecodes 0, 1000 and 2000 by the first part). -/
theorem cluster_block_timecodes :
    (∀ (c : List WFrame) (k : Nat), k < c.length →
      (clusterBlocks c 0).getD k default =
        .str 0xa3 (simpleBlockData 1 (durSum (c.take k)) true false 0 false
          (frameSlice ((c.getD k default).data)))) ∧
    ((∀ (t : Nat) (fr : List Nat), t < 65536 →
      simpleBlockData 1 t true false 0 false fr =
        129 :: t / 256 :: t % 256 :: 128 :: fr) ∧
    clusters (List.replicate 3 (⟨[0, 0, 0, 157, 1, 42, 64, 0, 64, 0], 1000, 64, 64⟩ : WFrame)) =
      [List.replicate 3 (⟨[0, 0, 0, 157, 1, 42, 64, 0, 64, 0], 1000, 64, 64⟩ : WFrame)]) := by
  refine ⟨?_, ?_, by decide⟩
  · intro c k h
    have := clusterBlocks_getD c 0 k h
    simpa using this
  · intro t fr ht
    unfold simpleBlockData
    have hb1 : t >>> 8 = t / 256 := by rw [Nat.shiftRight_eq_div_pow]
    have hb2 : t &&& 255 = t % 256 := by
      have h := Nat.and_pow_two_sub_one_eq_mod t 8
      norm_num at h
      exact h
    rw [hb1, hb2]
    norm_num
    decide

/-- Witness for claim C7: three frames of 1000 ms each form a single
cluster whose third block has relative timecode 2000. -/
theorem cluster_block_timecodes_witness :
    (clusterBlocks [⟨[0, 0, 0, 157, 1, 42, 64, 0, 64, 0], 1000, 64, 64⟩,
        ⟨[0, 0, 0, 157, 1, 42, 64, 0, 64, 0], 1000, 64, 64⟩,
        ⟨[0, 0, 0, 157, 1, 42, 64, 0, 64, 0], 1000, 64, 64⟩] 0).getD 2 default =
      .str 0xa3 (simpleBlockData 1 2000 true false 0 false
        (frameSlice [0, 0, 0, 157, 1, 42, 64, 0, 64, 0])) := by
  have h := cluster_block_timecodes.1
    [⟨[0, 0, 0, 157, 1, 42, 64, 0, 64, 0], 1000, 64, 64⟩,
      ⟨[0, 0, 0, 157, 1, 42, 64, 0, 64, 0], 1000, 64, 64⟩,
      ⟨[0, 0, 0, 157, 1, 42, 64, 0, 64, 0], 1000, 64, 64⟩] 2 (by norm_num)
  rw [h]
  exact rfl

theorem serEl_raw (b : List Nat) : serEl (.raw b) = .ok b := rfl

theorem serEl_num_eq (id v : Nat) : serEl (.num id v) = wrapEl id (bitsToBuffer (natBits v)) := by
  simp [serEl]

theorem serEl_fixed_eq (id : Nat) (v : Int) (s : Nat) :
    serEl (.fixed id v s) = wrapEl id (numToFixedBuffer v s) := by
  simp [serEl]

theorem serEl_str_eq (id : Nat) (s : List Nat) :
    serEl (.str id s) = wrapEl id (strToBuffer s) := by
  simp [serEl]

theorem serEl_node_eq (id : Nat) (ch : List EBMLEl) :
    serEl (.node id ch) = (serList ch) >>= fun c => wrapEl id c := by
  simp [serEl]

theorem serList_nil_eq : serList [] = .ok [] := rfl

theorem serList_cons_eq (e : EBMLEl) (r : List EBMLEl) :
    serList (e :: r) = (serEl e) >>= fun hd => (serList r) >>= fun tl => .ok (hd ++ tl) := by
  simp only [serList]
  cases serEl e <;> cases serList r <;> rfl

theorem wrapEl_ok (id : Nat) (c : List Nat) (h : c ≠ []) :
    wrapEl id c = .ok (numToBuffer id ++ vintRaw c.length ++ c) := by
  unfold wrapEl vintBytes
  rw [if_neg (by simpa [List.length_eq_zero] using h)]
  rfl

theorem wrapEl_ok_inv (id : Nat) (c o : List Nat) (h : wrapEl id c = .ok o) :
    o = numToBuffer id ++ vintRaw c.length ++ c := by
  unfold wrapEl vintBytes at h
  by_cases hc : c.length = 0
  · rw [if_pos hc, exbind_error] at h
    cases h
  · rw [if_neg hc, exbind_ok] at h
    exact (Except.ok.inj h).symm

theorem natBits_ne_nil (v : Nat) : natBits v ≠ [] := by
  unfold natBits
  split
  · simp
  · rename_i hv
    cases v with
    | zero => exact absurd rfl hv
    | succ k =>
      simp only [natBitsAux]
      rw [if_neg (by omega)]
      simp

theorem bitsToBuffer_ne_nil (bs : List Bool) (h : bs ≠ []) : bitsToBuffer bs ≠ [] := by
  unfold bitsToBuffer
  cases hp : List.replicate ((8 - bs.length % 8) % 8) false ++ bs with
  | nil => exact absurd (List.append_eq_nil.mp hp).2 h
  | cons a l =>
    simp [chunkBytesAux, List.length_cons]

/-- Serialized bytes of a number element (id plus minimal binary data). -/
def numElBytes (id v : Nat) : List Nat :=
  numToBuffer id ++ vintRaw (bitsToBuffer (natBits v)).length ++ bitsToBuffer (natBits v)

theorem serEl_numEl (id v : Nat) : serEl (.num id v) = .ok (numElBytes id v) := by
  rw [serEl_num_eq]
  exact wrapEl_ok id _ (bitsToBuffer_ne_nil _ (natBits_ne_nil v))

theorem numToFixedBuffer_ne_nil (v : Int) : numToFixedBuffer v 8 ≠ [] := by
  intro h0
  have := numToFixedBuffer_length v 8
  rw [h0] at this
  simp at this

theorem serEl_fixed8 (id : Nat) (v : Int) :
    serEl (.fixed id v 8) = .ok (numToBuffer id ++ vintRaw 8 ++ numToFixedBuffer v 8) := by
  rw [serEl_fixed_eq, wrapEl_ok id _ (numToFixedBuffer_ne_nil v), numToFixedBuffer_length]

/-- Serialized bytes of one CueTrackPositions element with cue position p. -/
def ctpBytes (p : Int) : List Nat :=
  numToBuffer 0xb7 ++ vintRaw 16 ++
    (numElBytes 0xf7 1 ++ (numToBuffer 0xf1 ++ vintRaw 8 ++ numToFixedBuffer p 8))

theorem serEl_ctp (p : Int) :
    serEl (.node 0xb7 [.num 0xf7 1, .fixed 0xf1 p 8]) = .ok (ctpBytes p) := by
  rw [serEl_node_eq, serList_cons_eq, serEl_numEl, serList_cons_eq, serEl_fixed8, serList_nil_eq]
  simp only [exbind_ok, List.append_nil]
  have hl : (numElBytes 0xf7 1 ++ (numToBuffer 0xf1 ++ vintRaw 8 ++ numToFixedBuffer p 8)).length
      = 16 := by
    have h1 : numElBytes 0xf7 1 = [247, 1, 1, 1] := rfl
    have h2 : numToBuffer 0xf1 = [241] := rfl
    have h3 : vintRaw 8 = [0, 128, 8] := rfl
    simp [h1, h2, h3, List.length_append, numToFixedBuffer_length]
  rw [wrapEl_ok _ _ (by intro h0; rw [h0] at hl; simp at hl), hl]
  rfl

/-- Serialized bytes of one CuePoint element with cue time t and position p. -/
def cpBytes (t : Nat) (p : Int) : List Nat :=
  numToBuffer 0xbb ++ vintRaw (numElBytes 0xb3 t ++ ctpBytes p).length ++
    (numElBytes 0xb3 t ++ ctpBytes p)

theorem ctpBytes_length (p : Int) : (ctpBytes p).length = 20 := by
  have h2 : numToBuffer 0xb7 = [183] := rfl
  have h3 : vintRaw 16 = [0, 128, 16] := rfl
  have h4 : numElBytes 0xf7 1 = [247, 1, 1, 1] := rfl
  have h5 : numToBuffer 0xf1 = [241] := rfl
  have h6 : vintRaw 8 = [0, 128, 8] := rfl
  simp [ctpBytes, h2, h3, h4, h5, h6, List.length_append, numToFixedBuffer_length]

theorem serEl_cuePoint (t : Nat) (p : Int) : serEl (cuePointEl t p) = .ok (cpBytes t p) := by
  unfold cuePointEl
  rw [serEl_node_eq, serList_cons_eq, serEl_numEl, serList_cons_eq, serEl_ctp, serList_nil_eq]
  simp only [exbind_ok, List.append_nil]
  have hne : numElBytes 0xb3 t ++ ctpBytes p ≠ [] := by
    intro h0
    have := congrArg List.length h0
    rw [List.length_append, ctpBytes_length] at this
    simp at this
  rw [wrapEl_ok _ _ hne]
  rfl

theorem cpBytes_length_stable (t : Nat) (p q : Int) :
    (cpBytes t p).length = (cpBytes t q).length := by
  simp [cpBytes, List.length_append, ctpBytes_length]

theorem serList_cuePoints (tps : List (Nat × Int)) :
    serList (tps.map fun tp => cuePointEl tp.1 tp.2) =
      .ok ((tps.map fun tp => cpBytes tp.1 tp.2).flatten) := by
  induction tps with
  | nil => rfl
  | cons tp rest ih =>
    simp only [List.map_cons, serList_cons_eq, serEl_cuePoint, ih, exbind_ok, List.flatten_cons]

theorem cues_flatten_len : ∀ (tps tps' : List (Nat × Int)),
    tps.map Prod.fst = tps'.map Prod.fst →
    ((tps.map fun tp => cpBytes tp.1 tp.2).flatten).length =
      ((tps'.map fun tp => cpBytes tp.1 tp.2).flatten).length := by
  intro tps
  induction tps with
  | nil =>
    intro tps' h
    cases tps' with
    | nil => rfl
    | cons a l => simp at h
  | cons tp rest ih =>
    intro tps' h
    cases tps' with
    | nil => simp at h
    | cons tp' rest' =>
      simp only [List.map_cons, List.cons.injEq] at h
      simp only [List.map_cons, List.flatten_cons, List.length_append]
      rw [ih rest' h.2, h.1, cpBytes_length_stable tp'.1 tp.2 tp'.2]

theorem cues_length_stable (tps tps' : List (Nat × Int))
    (hfst : tps.map Prod.fst = tps'.map Prod.fst)
    (b c : List Nat)
    (hb : serEl (cuesEl tps) = .ok b)
    (hc : serEl (cuesEl tps') = .ok c) :
    b.length = c.length := by
  unfold cuesEl at hb hc
  rw [serEl_node_eq, serList_cuePoints, exbind_ok] at hb hc
  have hb' := wrapEl_ok_inv _ _ _ hb
  have hc' := wrapEl_ok_inv _ _ _ hc
  have hkey := cues_flatten_len tps tps' hfst
  rw [hb', hc']
  simp [List.length_append, hkey]

theorem positionsFrom_length : ∀ (L : List Nat) (base : Nat),
    (positionsFrom base L).length = L.length := by
  intro L
  induction L with
  | nil => intro base; rfl
  | cons x rest ih => intro base; simp [positionsFrom, ih]

theorem positionsFrom_getD : ∀ (L : List Nat) (base n : Nat), n < L.length →
    (positionsFrom base L).getD n 0 = base + (L.take n).sum := by
  intro L
  induction L with
  | nil =>
    intro base n h
    simp at h
  | cons x rest ih =>
    intro base n h
    cases n with
    | zero => simp [positionsFrom]
    | succ k =>
      simp only [positionsFrom, List.getD_cons_succ, List.take_succ_cons, List.sum_cons]
      rw [ih (base + x) k (by simpa using Nat.lt_of_succ_lt_succ h)]
      omega

theorem serClusters_ok_length : ∀ (l : List (Nat × List WFrame)) (out : List (List Nat)),
    serClusters l = .ok out → out.length = l.length := by
  intro l
  induction l with
  | nil =>
    intro out h
    have : ([] : List (List Nat)) = out := Except.ok.inj h
    rw [← this]
    rfl
  | cons tc rest ih =>
    intro out h
    unfold serClusters at h
    cases h1 : serEl (clusterEl tc.1 tc.2) with
    | error e => rw [h1, exbind_error] at h; cases h
    | ok b =>
      rw [h1, exbind_ok] at h
      cases h2 : serClusters rest with
      | error e => rw [h2, exbind_error] at h; cases h
      | ok bs =>
        rw [h2, exbind_ok] at h
        have : (b :: bs : List (List Nat)) = out := Except.ok.inj h
        rw [← this]
        simp [ih bs h2]

theorem serList_raw (bs : List (List Nat)) :
    serList (bs.map EBMLEl.raw) = .ok bs.flatten := by
  induction bs with
  | nil => rfl
  | cons b rest ih =>
    simp only [List.map_cons, serList_cons_eq, serEl_raw, ih, exbind_ok, List.flatten_cons]

theorem startTimesAux_length : ∀ (cls : List (List WFrame)) (t : Nat),
    (startTimesAux t cls).length = cls.length := by
  intro cls
  induction cls with
  | nil => intro t; rfl
  | cons c rest ih => intro t; simp [startTimesAux, ih]

theorem serEl_node_ok_ne_nil (id : Nat) (ch : List EBMLEl) (o : List Nat)
    (hid : numToBuffer id ≠ [])
    (h : serEl (.node id ch) = .ok o) : o ≠ [] := by
  rw [serEl_node_eq] at h
  cases hc : serList ch with
  | error e => rw [hc, exbind_error] at h; cases h
  | ok c =>
    rw [hc, exbind_ok] at h
    have heq := wrapEl_ok_inv _ _ _ h
    rw [heq]
    intro hnil
    rw [List.append_eq_nil, List.append_eq_nil] at hnil
    exact hid hnil.1.1

/-- Claim C2: in the final output, the position stored in the n-th CuePoint
equals the sum of the serialized byte lengths of all Segment children
preceding cluster n -- Info, Tracks, the finalized Cues and the clusters
before it -- measured against the bytes that actually appear in the output
(whose Segment content, the concatenation of those rendered children, is a
suffix of the output buffer).  The proof rests on the fixed 8-byte width of
the cue positions: the Cues skeleton rendered during layout has exactly the
length of the finalized Cues rendered into the output. -/
theorem cue_cluster_positions (frames : List WFrame) (r : MuxResult)
    (h : muxFull frames = .ok r) :
    (∀ n, n < r.cuePositions.length →
      r.cuePositions.getD n 0 =
        r.infoBytes.length + r.tracksBytes.length + r.cuesBytes.length +
          ((r.clusterBytes.take n).map List.length).sum) ∧
    (r.infoBytes ++ r.tracksBytes ++ r.cuesBytes ++ r.clusterBytes.flatten).IsSuffix
      r.output := by
  unfold muxFull at h
  cases hval : validateFrames frames with
  | error e => rw [hval, exbind_error] at h; cases h
  | ok info =>
  rw [hval, exbind_ok] at h
  cases hsi : serEl (segmentInfoEl info.1) with
  | error e => rw [hsi, exbind_error] at h; cases h
  | ok si =>
  rw [hsi, exbind_ok] at h
  cases hst : serEl (tracksEl info.2.1 info.2.2) with
  | error e => rw [hst, exbind_error] at h; cases h
  | ok st =>
  rw [hst, exbind_ok] at h
  cases hsc : serEl (cuesEl ((startTimes (clusters frames)).map fun t => (t, 0))) with
  | error e => rw [hsc, exbind_error] at h; cases h
  | ok sc =>
  rw [hsc, exbind_ok] at h
  cases hcbs : serClusters ((startTimes (clusters frames)).zip (clusters frames)) with
  | error e => rw [hcbs, exbind_error] at h; cases h
  | ok cbs =>
  rw [hcbs, exbind_ok] at h
  cases hscf : serEl (cuesEl ((startTimes (clusters frames)).zip
      ((positionsFrom (si.length + st.length + sc.length)
        (cbs.map List.length)).map Int.ofNat))) with
  | error e => rw [hscf, exbind_error] at h; cases h
  | ok scf =>
  rw [hscf, exbind_ok] at h
  cases hout : serList [ebmlHeaderEl,
      .node 0x18538067 ([.raw si, .raw st,
        cuesEl ((startTimes (clusters frames)).zip
          ((positionsFrom (si.length + st.length + sc.length)
            (cbs.map List.length)).map Int.ofNat))] ++
        cbs.map EBMLEl.raw)] with
  | error e => rw [hout, exbind_error] at h; cases h
  | ok out =>
  rw [hout, exbind_ok] at h
  have hr := Except.ok.inj h
  subst hr
  -- length of the skeleton equals the length of the finalized Cues
  have hlens : (startTimesAux 0 (clusters frames)).length = (clusters frames).length :=
    startTimesAux_length (clusters frames) 0
  have hcbslen : cbs.length = (startTimes (clusters frames)).length := by
    rw [serClusters_ok_length _ _ hcbs, List.length_zip]
    unfold startTimes
    omega
  have hfst : ((startTimes (clusters frames)).map fun t => (t, 0) :
        List (Nat × Int)).map Prod.fst =
      ((startTimes (clusters frames)).zip
        ((positionsFrom (si.length + st.length + sc.length)
          (cbs.map List.length)).map Int.ofNat)).map Prod.fst := by
    rw [List.map_fst_zip]
    · have hcomp : (Prod.fst ∘ fun t : Nat => ((t, 0) : Nat × Int)) = id := rfl
      rw [List.map_map, hcomp, List.map_id]
    · rw [List.length_map, positionsFrom_length, List.length_map]
      omega
  have hstab : sc.length = scf.length :=
    cues_length_stable _ _ hfst sc scf hsc hscf
  constructor
  · intro n hn
    simp only at hn ⊢
    rw [positionsFrom_getD _ _ _ (by rw [← positionsFrom_length (cbs.map List.length)
      (si.length + st.length + sc.length)]; simpa using hn)]
    rw [← List.map_take]
    omega
  · -- the Segment content is a suffix of the output
    have hsine : si ≠ [] :=
      serEl_node_ok_ne_nil 0x1549a966 _ si (by decide) hsi
    have hcontent : si ++ (st ++ (scf ++ cbs.flatten)) ≠ [] := by
      intro h0
      rw [List.append_eq_nil] at h0
      exact hsine h0.1
    obtain ⟨hb, hhdr⟩ : ∃ hb, serEl ebmlHeaderEl = .ok hb := ⟨_, rfl⟩
    have hch : serList ([.raw si, .raw st,
        cuesEl ((startTimes (clusters frames)).zip
          ((positionsFrom (si.length + st.length + sc.length)
            (cbs.map List.length)).map Int.ofNat))] ++
        cbs.map EBMLEl.raw) = .ok (si ++ (st ++ (scf ++ cbs.flatten))) := by
      simp only [List.cons_append, List.nil_append]
      rw [serList_cons_eq, serEl_raw, exbind_ok, serList_cons_eq, serEl_raw, exbind_ok,
        serList_cons_eq, hscf, exbind_ok, serList_raw, exbind_ok, exbind_ok, exbind_ok]
    rw [serList_cons_eq, hhdr, exbind_ok, serList_cons_eq, serList_nil_eq] at hout
    rw [serEl_node_eq, hch, exbind_ok, wrapEl_ok _ _ hcontent] at hout
    simp only [exbind_ok, List.append_nil] at hout
    have hout' := Except.ok.inj hout
    refine ⟨hb ++ (numToBuffer 0x18538067 ++
      vintRaw (si ++ (st ++ (scf ++ cbs.flatten))).length), ?_⟩
    simp only at hout' ⊢
    rw [← hout']
    simp [List.append_assoc]

/-- Two frames whose durations 30000 and 1 produce a two-cluster document. -/
def sampleTwoClusterFrames : List WFrame :=
  [⟨[0, 0, 0, 157, 1, 42, 64, 0, 64, 0], 30000, 64, 64⟩,
    ⟨[0, 0, 0, 157, 1, 42, 64, 0, 64, 0], 1, 64, 64⟩]

/-- The mux result of the two-cluster sample document. -/
def sampleTwoClusterResult : MuxResult :=
  match muxFull sampleTwoClusterFrames with
  | .ok r => r
  | .error _ => default

set_option maxRecDepth 100000 in
/-- Witness for claim C2: in the concrete two-cluster document,
CuePoint[1] stores exactly len Info + len Tracks + len Cues + len
Cluster 0. -/
theorem cue_cluster_positions_witness :
    muxFull sampleTwoClusterFrames = .ok sampleTwoClusterResult ∧
    sampleTwoClusterResult.cuePositions.getD 1 0 =
      sampleTwoClusterResult.infoBytes.length + sampleTwoClusterResult.tracksBytes.length +
        sampleTwoClusterResult.cuesBytes.length +
        ((sampleTwoClusterResult.clusterBytes.take 1).map List.length).sum := by
  have h : muxFull sampleTwoClusterFrames = .ok sampleTwoClusterResult := by decide
  exact ⟨h, (cue_cluster_positions sampleTwoClusterFrames sampleTwoClusterResult h).1 1
    (by decide)⟩

end Whammy
